import Mathlib

/-!
Verification of the dual-representation text/byte buffer `MaybeUtf8`
(src/context/maybe_utf8.rs) of the rustful repository.

Modelling conventions:
* A byte is a `Nat` (values ≥ 256 never satisfy any UTF-8 byte-class test,
  so they are harmless and simply classified as invalid lead/continuation
  bytes).
* A Rust `Vec<u8>` or `&[u8]` is a `List Nat`.
* A Rust `String` or `&str` is represented by its underlying UTF-8 byte
  buffer, also a `List Nat`; the `String` type invariant (the buffer is
  valid UTF-8) is carried as an explicit hypothesis `validUtf8 s = true`
  where a theorem needs it.
* A Rust `char` is its Unicode scalar value as a `Nat`, with the `char`
  type invariant carried as the hypothesis `isScalar c = true`.
* The standard library routines used by the source
  (`str::from_utf8`, `String::from_utf8`, `String::from_utf8_lossy`,
  `String::push`) are translated at the byte level from the documented
  standard UTF-8 validation / lossy-decoding algorithm they implement.
-/

/-- Is `b` a UTF-8 continuation byte (0x80 ..= 0xBF)? -/
def isCont (b : Nat) : Bool :=
  decide (0x80 ≤ b ∧ b ≤ 0xBF)

/-- Admissible second byte of a three-byte sequence with lead byte `e`
(the std validator's table: E0 ⇒ A0..BF, ED ⇒ 80..9F, otherwise 80..BF). -/
def validSecond3 (e b1 : Nat) : Bool :=
  if e = 0xE0 then decide (0xA0 ≤ b1 ∧ b1 ≤ 0xBF)
  else if e = 0xED then decide (0x80 ≤ b1 ∧ b1 ≤ 0x9F)
  else isCont b1

/-- Admissible second byte of a four-byte sequence with lead byte `f`
(the std validator's table: F0 ⇒ 90..BF, F4 ⇒ 80..8F, otherwise 80..BF). -/
def validSecond4 (f b1 : Nat) : Bool :=
  if f = 0xF0 then decide (0x90 ≤ b1 ∧ b1 ≤ 0xBF)
  else if f = 0xF4 then decide (0x80 ≤ b1 ∧ b1 ≤ 0x8F)
  else isCont b1

/-- One step of the standard UTF-8 scanner, as implemented by
`core::str::from_utf8` and the lossy decoder: given the first byte `b` and
the remaining bytes `rest`, either consume one well-formed scalar-value
encoding (`Except.ok (consumedBytes, remaining)`) or fail
(`Except.error remaining`), where on failure `remaining` is the input
still to be scanned after skipping the maximal subpart of the ill-formed
sequence (the std scanner's error length: 1 byte for a bad lead or bad
second byte, 2 or 3 bytes when a longer prefix was well formed; a sequence
truncated by the end of input leaves nothing to scan). -/
def utf8Step (b : Nat) (rest : List Nat) : Except (List Nat) (List Nat × List Nat) :=
  if b ≤ 0x7F then .ok ([b], rest)
  else if 0xC2 ≤ b ∧ b ≤ 0xDF then
    match rest with
    | [] => .error []
    | b1 :: r => if isCont b1 then .ok ([b, b1], r) else .error (b1 :: r)
  else if 0xE0 ≤ b ∧ b ≤ 0xEF then
    match rest with
    | [] => .error []
    | b1 :: r =>
      if validSecond3 b b1 then
        match r with
        | [] => .error []
        | b2 :: r2 => if isCont b2 then .ok ([b, b1, b2], r2) else .error (b2 :: r2)
      else .error (b1 :: r)
  else if 0xF0 ≤ b ∧ b ≤ 0xF4 then
    match rest with
    | [] => .error []
    | b1 :: r =>
      if validSecond4 b b1 then
        match r with
        | [] => .error []
        | b2 :: r2 =>
          if isCont b2 then
            match r2 with
            | [] => .error []
            | b3 :: r3 => if isCont b3 then .ok ([b, b1, b2, b3], r3) else .error (b3 :: r3)
          else .error (b2 :: r2)
      else .error (b1 :: r)
  else .error rest

theorem utf8Step_ok_length (b : Nat) (rest : List Nat) (x : List Nat × List Nat)
    (h : utf8Step b rest = .ok x) : x.2.length ≤ rest.length := by
  unfold utf8Step at h
  repeat' split at h
  all_goals try (injection h with h; subst h)
  all_goals try simp_all
  all_goals omega

theorem utf8Step_error_length (b : Nat) (rest : List Nat) (r : List Nat)
    (h : utf8Step b rest = .error r) : r.length ≤ rest.length := by
  unfold utf8Step at h
  repeat' split at h
  all_goals try (injection h with h; subst h)
  all_goals try simp_all
  all_goals omega

/-- `from_utf8`-style validity of a whole byte buffer: scan scalar values
one at a time; any scanner failure (including a truncated final sequence)
makes the buffer invalid. Structured exactly as one `utf8Step` per
scalar value (see `validUtf8_cons_ok` and `validUtf8_cons_error`). -/
def validUtf8 : List Nat → Bool
  | [] => true
  | b :: rest =>
    if b ≤ 0x7F then validUtf8 rest
    else if 0xC2 ≤ b ∧ b ≤ 0xDF then
      match rest with
      | [] => false
      | b1 :: r => isCont b1 && validUtf8 r
    else if 0xE0 ≤ b ∧ b ≤ 0xEF then
      match rest with
      | [] => false
      | b1 :: r =>
        if validSecond3 b b1 then
          match r with
          | [] => false
          | b2 :: r2 => isCont b2 && validUtf8 r2
        else false
    else if 0xF0 ≤ b ∧ b ≤ 0xF4 then
      match rest with
      | [] => false
      | b1 :: r =>
        if validSecond4 b b1 then
          match r with
          | [] => false
          | b2 :: r2 =>
            if isCont b2 then
              match r2 with
              | [] => false
              | b3 :: r3 => isCont b3 && validUtf8 r3
            else false
        else false
    else false

/-- The replacement character U+FFFD as its UTF-8 byte encoding. -/
def repl : List Nat := [0xEF, 0xBF, 0xBD]

/-- `String::from_utf8_lossy`, at the byte level: well-formed scalar-value
encodings are copied verbatim; each maximal subpart of an ill-formed
sequence is replaced by the UTF-8 encoding of U+FFFD. The result is the
byte buffer of the produced string. One `utf8Step` per scalar value. -/
def utf8Lossy : List Nat → List Nat
  | [] => []
  | b :: rest =>
    match h : utf8Step b rest with
    | .ok x => x.1 ++ utf8Lossy x.2
    | .error r => repl ++ utf8Lossy r
termination_by l => l.length
decreasing_by
  · simp only [List.length_cons]
    exact Nat.lt_succ_of_le (utf8Step_ok_length _ _ _ (by assumption))
  · simp only [List.length_cons]
    exact Nat.lt_succ_of_le (utf8Step_error_length _ _ _ (by assumption))

/-- Is `c` a Unicode scalar value (the invariant of Rust `char`)? -/
def isScalar (c : Nat) : Bool :=
  decide (c < 0x110000 ∧ ¬(0xD800 ≤ c ∧ c ≤ 0xDFFF))

/-- The UTF-8 encoding of the scalar value `c` (what `String::push`
appends to the string's byte buffer). -/
def utf8EncodeChar (c : Nat) : List Nat :=
  if c ≤ 0x7F then [c]
  else if c ≤ 0x7FF then [0xC0 + c / 64, 0x80 + c % 64]
  else if c ≤ 0xFFFF then [0xE0 + c / 4096, 0x80 + (c / 64) % 64, 0x80 + c % 64]
  else [0xF0 + c / 262144, 0x80 + (c / 4096) % 64, 0x80 + (c / 64) % 64, 0x80 + c % 64]

theorem utf8Step_ok_decomp (b : Nat) (rest : List Nat) (x : List Nat × List Nat)
    (h : utf8Step b rest = .ok x) : b :: rest = x.1 ++ x.2 := by
  unfold utf8Step at h
  repeat' split at h
  all_goals try (injection h with h; subst h)
  all_goals simp_all

theorem utf8Step_ok_append (b : Nat) (rest t : List Nat) (x : List Nat × List Nat)
    (h : utf8Step b rest = .ok x) : utf8Step b (rest ++ t) = .ok (x.1, x.2 ++ t) := by
  unfold utf8Step at h
  repeat' split at h
  all_goals try (injection h with h; subst h)
  all_goals try exact absurd h (by simp)
  all_goals (unfold utf8Step; try simp only [List.cons_append]; repeat' split)
  all_goals try simp_all
  all_goals omega

theorem validUtf8_eq_step (b : Nat) (rest : List Nat) :
    validUtf8 (b :: rest) = (match utf8Step b rest with
      | .ok x => validUtf8 x.2
      | .error _ => false) := by
  rw [validUtf8.eq_def]
  unfold utf8Step
  by_cases h1 : b ≤ 0x7F
  · simp [h1]
  by_cases h2 : 0xC2 ≤ b ∧ b ≤ 0xDF
  · cases rest with
    | nil => simp [h1, h2]
    | cons b1 r =>
      by_cases hc : isCont b1 = true
      · simp [h1, h2, hc]
      · simp [h1, h2, hc]
  by_cases h3 : 0xE0 ≤ b ∧ b ≤ 0xEF
  · cases rest with
    | nil => simp [h1, h2, h3]
    | cons b1 r =>
      by_cases hs : validSecond3 b b1 = true
      · cases r with
        | nil => simp [h1, h2, h3, hs]
        | cons b2 r2 =>
          by_cases hc2 : isCont b2 = true
          · simp [h1, h2, h3, hs, hc2]
          · simp [h1, h2, h3, hs, hc2]
      · simp [h1, h2, h3, hs]
  by_cases h4 : 0xF0 ≤ b ∧ b ≤ 0xF4
  · cases rest with
    | nil => simp [h1, h2, h3, h4]
    | cons b1 r =>
      by_cases hs : validSecond4 b b1 = true
      · cases r with
        | nil => simp [h1, h2, h3, h4, hs]
        | cons b2 r2 =>
          by_cases hc2 : isCont b2 = true
          · cases r2 with
            | nil => simp [h1, h2, h3, h4, hs, hc2]
            | cons b3 r3 =>
              by_cases hc3 : isCont b3 = true
              · simp [h1, h2, h3, h4, hs, hc2, hc3]
              · simp [h1, h2, h3, h4, hs, hc2, hc3]
          · simp [h1, h2, h3, h4, hs, hc2]
      · simp [h1, h2, h3, h4, hs]
  · simp [h1, h2, h3, h4]

theorem validUtf8_cons_ok (b : Nat) (rest : List Nat) (x : List Nat × List Nat)
    (hstep : utf8Step b rest = .ok x) : validUtf8 (b :: rest) = validUtf8 x.2 := by
  rw [validUtf8_eq_step, hstep]

theorem validUtf8_cons_error (b : Nat) (rest : List Nat) (r : List Nat)
    (hstep : utf8Step b rest = .error r) : validUtf8 (b :: rest) = false := by
  rw [validUtf8_eq_step, hstep]

theorem utf8Lossy_cons_ok (b : Nat) (rest : List Nat) (x : List Nat × List Nat)
    (hstep : utf8Step b rest = .ok x) : utf8Lossy (b :: rest) = x.1 ++ utf8Lossy x.2 := by
  unfold utf8Lossy
  split
  all_goals simp_all
  all_goals first
  | exact utf8Lossy.eq_def _
  | exact (utf8Lossy.eq_def _).symm

theorem utf8Lossy_cons_error (b : Nat) (rest : List Nat) (r : List Nat)
    (hstep : utf8Step b rest = .error r) : utf8Lossy (b :: rest) = repl ++ utf8Lossy r := by
  unfold utf8Lossy
  split
  all_goals simp_all
  all_goals first
  | exact utf8Lossy.eq_def _
  | exact (utf8Lossy.eq_def _).symm

/-- Scanning a valid buffer followed by anything proceeds exactly as
scanning the valid prefix first: validity of `s ++ t` for valid `s`
is validity of `t`. -/
theorem validUtf8_append_left : ∀ (s t : List Nat), validUtf8 s = true →
    validUtf8 (s ++ t) = validUtf8 t
  | [], _, _ => by simp
  | b :: rest, t, hs => by
    cases hstep : utf8Step b rest with
    | ok x =>
      rw [validUtf8_cons_ok b rest x hstep] at hs
      rw [List.cons_append, validUtf8_cons_ok b (rest ++ t) (x.1, x.2 ++ t)
        (utf8Step_ok_append b rest t x hstep)]
      exact validUtf8_append_left x.2 t hs
    | error r =>
      rw [validUtf8_cons_error b rest r hstep] at hs
      exact absurd hs (by simp)
termination_by s => s.length
decreasing_by
  simp only [List.length_cons]
  exact Nat.lt_succ_of_le (utf8Step_ok_length _ _ _ hstep)

/-- Concatenating two valid buffers yields a valid buffer. -/
theorem validUtf8_append (s t : List Nat) (hs : validUtf8 s = true)
    (ht : validUtf8 t = true) : validUtf8 (s ++ t) = true := by
  rw [validUtf8_append_left s t hs]; exact ht

/-- A valid buffer whose concatenation with `t` is invalid must have been
followed by an invalid `t`. -/
theorem validUtf8_append_invalid (s t : List Nat) (hs : validUtf8 s = true)
    (ht : validUtf8 t = false) : validUtf8 (s ++ t) = false := by
  rw [validUtf8_append_left s t hs]; exact ht

/-- Lossy decoding of a valid buffer copies it verbatim (no replacement
character is ever produced). -/
theorem utf8Lossy_of_valid : ∀ (s : List Nat), validUtf8 s = true →
    utf8Lossy s = s
  | [], _ => by simp [utf8Lossy]
  | b :: rest, hs => by
    cases hstep : utf8Step b rest with
    | ok x =>
      rw [validUtf8_cons_ok b rest x hstep] at hs
      rw [utf8Lossy_cons_ok b rest x hstep, utf8Lossy_of_valid x.2 hs]
      exact (utf8Step_ok_decomp b rest x hstep).symm
    | error r =>
      rw [validUtf8_cons_error b rest r hstep] at hs
      exact absurd hs (by simp)
termination_by s => s.length
decreasing_by
  simp only [List.length_cons]
  exact Nat.lt_succ_of_le (utf8Step_ok_length _ _ _ hstep)

/-- The UTF-8 encoding of any Unicode scalar value is a valid UTF-8
buffer (what makes appending a `char` to either carrier legal). -/
theorem validUtf8_encodeChar (c : Nat) (h : isScalar c = true) :
    validUtf8 (utf8EncodeChar c) = true := by
  simp only [isScalar, decide_eq_true_eq] at h
  unfold utf8EncodeChar
  by_cases h1 : c ≤ 0x7F
  · rw [if_pos h1]
    rw [validUtf8_cons_ok c [] ([c], []) (by unfold utf8Step; rw [if_pos h1])]
    simp [validUtf8]
  · rw [if_neg h1]
    by_cases h2 : c ≤ 0x7FF
    · rw [if_pos h2]
      rw [validUtf8_cons_ok _ _ ([0xC0 + c / 64, 0x80 + c % 64], []) ?step]
      · simp [validUtf8]
      unfold utf8Step
      rw [if_neg (by omega), if_pos (by omega)]
      simp only
      rw [if_pos (by simp only [isCont, decide_eq_true_eq]; omega)]
    · rw [if_neg h2]
      by_cases h3 : c ≤ 0xFFFF
      · rw [if_pos h3]
        rw [validUtf8_cons_ok _ _
          ([0xE0 + c / 4096, 0x80 + c / 64 % 64, 0x80 + c % 64], []) ?step3]
        · simp [validUtf8]
        unfold utf8Step
        rw [if_neg (by omega), if_neg (by omega), if_pos (by omega)]
        simp only
        have hs2 : validSecond3 (0xE0 + c / 4096) (0x80 + c / 64 % 64) = true := by
          unfold validSecond3
          by_cases he0 : 0xE0 + c / 4096 = 0xE0
          · rw [if_pos he0]
            simp only [decide_eq_true_eq]
            omega
          · rw [if_neg he0]
            by_cases hed : 0xE0 + c / 4096 = 0xED
            · rw [if_pos hed]
              simp only [decide_eq_true_eq]
              omega
            · rw [if_neg hed]
              simp only [isCont, decide_eq_true_eq]
              omega
        rw [if_pos hs2]
        rw [if_pos (by simp only [isCont, decide_eq_true_eq]; omega)]
      · rw [if_neg h3]
        rw [validUtf8_cons_ok _ _
          ([0xF0 + c / 262144, 0x80 + c / 4096 % 64, 0x80 + c / 64 % 64, 0x80 + c % 64], [])
          ?step4]
        · simp [validUtf8]
        unfold utf8Step
        rw [if_neg (by omega), if_neg (by omega), if_neg (by omega), if_pos (by omega)]
        simp only
        have hs2 : validSecond4 (0xF0 + c / 262144) (0x80 + c / 4096 % 64) = true := by
          unfold validSecond4
          by_cases hf0 : 0xF0 + c / 262144 = 0xF0
          · rw [if_pos hf0]
            simp only [decide_eq_true_eq]
            omega
          · rw [if_neg hf0]
            by_cases hf4 : 0xF0 + c / 262144 = 0xF4
            · rw [if_pos hf4]
              simp only [decide_eq_true_eq]
              omega
            · rw [if_neg hf4]
              simp only [isCont, decide_eq_true_eq]
              omega
        rw [if_pos hs2]
        rw [if_pos (by simp only [isCont, decide_eq_true_eq]; omega)]
        rw [if_pos (by simp only [isCont, decide_eq_true_eq]; omega)]

/-- The enum from src/context/maybe_utf8.rs: string data that may or may
not be UTF-8 encoded. `Utf8 S` holds a UTF-8 encoded string carrier,
`NotUtf8 V` a non-UTF-8 byte carrier. -/
inductive MaybeUtf8 (S V : Type) where
  | Utf8 : S → MaybeUtf8 S V
  | NotUtf8 : V → MaybeUtf8 S V
deriving DecidableEq

/-- `MaybeUtf8Owned = MaybeUtf8<String, Vec<u8>>`: both carriers are owned
byte buffers (a `String` is represented by its UTF-8 byte buffer). -/
abbrev MaybeUtf8Owned := MaybeUtf8 (List Nat) (List Nat)

/-- Does the active variant carry validated text (`Utf8`)? -/
def isUtf8 {S V : Type} : MaybeUtf8 S V → Bool
  | .Utf8 _ => true
  | .NotUtf8 _ => false

/-- Does the active variant carry raw bytes (`NotUtf8`)? -/
def isNotUtf8 {S V : Type} : MaybeUtf8 S V → Bool
  | .Utf8 _ => false
  | .NotUtf8 _ => true

/-- The `String` type invariant of the `Utf8` carrier of an owned value:
whenever the active variant is `Utf8`, its buffer is valid UTF-8. -/
def wfOwned : MaybeUtf8Owned → Prop
  | .Utf8 s => validUtf8 s = true
  | .NotUtf8 _ => True

instance (m : MaybeUtf8Owned) : Decidable (wfOwned m) := by
  cases m <;> (unfold wfOwned; infer_instance)

/-- `impl AsRef<[u8]> for MaybeUtf8` (maybe_utf8.rs lines 113-120): the
flat byte view of either carrier. The carriers' own `AsRef<[u8]>`
instances are passed as explicit functions `fs`, `fv`. -/
def asRefBytes {S V : Type} (fs : S → List Nat) (fv : V → List Nat) :
    MaybeUtf8 S V → List Nat
  | .Utf8 s => fs s
  | .NotUtf8 v => fv v

/-- `MaybeUtf8::as_slice` (lines 23-28): reborrow each carrier through its
`AsRef` conversion, keeping the variant. -/
def as_slice {S V S2 V2 : Type} (fs : S → S2) (fv : V → V2) :
    MaybeUtf8 S V → MaybeUtf8 S2 V2
  | .Utf8 s => .Utf8 (fs s)
  | .NotUtf8 v => .NotUtf8 (fv v)

/-- `MaybeUtf8::as_utf8` (lines 31-36) on the owned form: the text if the
variant is `Utf8`, otherwise absent. -/
def as_utf8 : MaybeUtf8Owned → Option (List Nat)
  | .Utf8 s => some s
  | .NotUtf8 _ => none

/-- `MaybeUtf8::as_utf8_lossy` (lines 39-44) on the owned form, as the
byte buffer of the returned `Cow<str>`: the text itself for `Utf8`,
`String::from_utf8_lossy` of the bytes for `NotUtf8`. -/
def as_utf8_lossy : MaybeUtf8Owned → List Nat
  | .Utf8 s => s
  | .NotUtf8 v => utf8Lossy v

/-- `MaybeUtf8::as_bytes` (lines 47-52) on the owned form: the flat byte
view of whichever carrier is active. -/
def as_bytes (m : MaybeUtf8Owned) : List Nat :=
  asRefBytes id id m

/-- `MaybeUtf8::push_char` (lines 57-66): `String::push` on the `Utf8`
carrier; on the `NotUtf8` carrier the source transmutes the byte vector to
a `String` and calls `String::push`, which appends the UTF-8 encoding of
the character to the underlying byte buffer. -/
def push_char (m : MaybeUtf8Owned) (c : Nat) : MaybeUtf8Owned :=
  match m with
  | .Utf8 s => .Utf8 (s ++ utf8EncodeChar c)
  | .NotUtf8 v => .NotUtf8 (v ++ utf8EncodeChar c)

/-- Modelled from the spec: `BytesExt::push_bytes` (from the repository's
`utils` module, whose source is not part of the shown material) appends
the given bytes to a byte vector; per the spec, appended data is
concatenated onto the flat byte buffer. -/
def bytesPushBytes (v bs : List Nat) : List Nat :=
  v ++ bs

/-- `impl Into<Vec<u8>> for MaybeUtf8` (lines 162-169): flatten whichever
carrier is active into its byte buffer. -/
def intoVec : MaybeUtf8Owned → List Nat
  | .Utf8 s => s
  | .NotUtf8 v => v

/-- `MaybeUtf8::push_str` (lines 69-74): `String::push_str` on the `Utf8`
carrier (append the bytes of the argument), `BytesExt::push_bytes` of the
argument's bytes on the `NotUtf8` carrier. -/
def push_str (m : MaybeUtf8Owned) (t : List Nat) : MaybeUtf8Owned :=
  match m with
  | .Utf8 s => .Utf8 (s ++ t)
  | .NotUtf8 v => .NotUtf8 (bytesPushBytes v t)

/-- `impl From<Vec<u8>> for MaybeUtf8<String, Vec<u8>>` (lines 104-111):
validate once; valid bytes become the `Utf8` variant reinterpreted in
place, invalid bytes are kept unchanged in the `NotUtf8` variant
(`String::from_utf8` returns the rejected bytes through the error). -/
def fromBytes (bytes : List Nat) : MaybeUtf8Owned :=
  if validUtf8 bytes then .Utf8 bytes else .NotUtf8 bytes

/-- `impl From<String> for MaybeUtf8<String, V>` (lines 92-96): a string
always becomes the `Utf8` variant, no validation. -/
def fromString {V : Type} (s : List Nat) : MaybeUtf8 (List Nat) V :=
  .Utf8 s

/-- `MaybeUtf8::push_bytes` (lines 78-89): if the incoming bytes validate
standalone, delegate to `push_str`; otherwise take the current value out,
flatten it to a byte vector (`Into<Vec<u8>>`), append the bytes
(`BytesExt::push_bytes`), and rebuild through `From<Vec<u8>>` - which
re-classifies the whole flattened buffer. -/
def push_bytes (m : MaybeUtf8Owned) (bs : List Nat) : MaybeUtf8Owned :=
  if validUtf8 bs then push_str m bs
  else fromBytes (bytesPushBytes (intoVec m) bs)

/-- `impl PartialEq for MaybeUtf8` (lines 128-137), across any two carrier
instantiations with byte views: equality of the flat byte views. -/
def muEq {S1 V1 S2 V2 : Type} (fs1 : S1 → List Nat) (fv1 : V1 → List Nat)
    (fs2 : S2 → List Nat) (fv2 : V2 → List Nat)
    (m1 : MaybeUtf8 S1 V1) (m2 : MaybeUtf8 S2 V2) : Bool :=
  asRefBytes fs1 fv1 m1 == asRefBytes fs2 fv2 m2

/-- `impl Hash for MaybeUtf8` (lines 141-145): the hasher consumes exactly
the flat byte view, for any hasher `hashFn`. -/
def muHash {S V : Type} (hashFn : List Nat → Nat) (fs : S → List Nat)
    (fv : V → List Nat) (m : MaybeUtf8 S V) : Nat :=
  hashFn (asRefBytes fs fv m)

/-- `impl Into<String> for MaybeUtf8` (lines 147-160) on the owned form,
as the byte buffer of the returned `String`: `Utf8` converts directly;
`NotUtf8` runs `String::from_utf8_lossy` and keeps the original buffer
when the lossy pass borrowed it unchanged (exactly when the bytes were
already valid). -/
def intoString (m : MaybeUtf8Owned) : List Nat :=
  match m with
  | .Utf8 s => s
  | .NotUtf8 v => if validUtf8 v then v else utf8Lossy v

/-- C1 counterexample: the claim fails on the code. The owned buffer built
from the invalid bytes EF BF 82-prefix `[0xE2, 0x82]` is in the `NotUtf8`
(Bytes) variant, yet appending the standalone-invalid byte `[0xAC]` with
`push_bytes` flips it back to the `Utf8` (Text) variant, because the
error branch of `push_bytes` rebuilds the value through `From<Vec<u8>>`,
which re-validates the whole flattened buffer `[0xE2, 0x82, 0xAC]`
(the euro sign, valid UTF-8). -/
theorem C1_counterexample :
    isNotUtf8 (fromBytes [0xE2, 0x82]) = true ∧
      isUtf8 (push_bytes (fromBytes [0xE2, 0x82]) [0xAC]) = true := by
  decide

/-- C1 (amended): for a buffer in the `NotUtf8` (Bytes) variant,
`push_char` and `push_str` never change the variant, and `push_bytes`
keeps it `NotUtf8` except in exactly one case: when the appended bytes are
invalid standalone but the whole flattened concatenation is valid UTF-8,
the re-classification in the error branch of `push_bytes` moves the
variant back to `Utf8` (Text). -/
theorem C1_amended_reclassification (v bs t : List Nat) (c : Nat) :
    isNotUtf8 (push_char (MaybeUtf8.NotUtf8 v) c) = true ∧
    isNotUtf8 (push_str (MaybeUtf8.NotUtf8 v) t) = true ∧
    (isUtf8 (push_bytes (MaybeUtf8.NotUtf8 v) bs) = true ↔
      (validUtf8 bs = false ∧ validUtf8 (v ++ bs) = true)) := by
  refine ⟨rfl, rfl, ?_⟩
  unfold push_bytes
  split
  · rename_i hv
    simp [push_str, bytesPushBytes, isUtf8, hv]
  · rename_i hv
    simp only [intoVec, bytesPushBytes]
    unfold fromBytes
    split <;> simp_all [isUtf8]

/-- C2: constructing an owned buffer from any byte sequence `b` and
reading it back flat (`as_bytes`) or converting it out (`Into<Vec<u8>>`)
returns exactly `b`, whichever variant the construction chose. -/
theorem C2_byte_roundtrip (b : List Nat) :
    as_bytes (fromBytes b) = b ∧ intoVec (fromBytes b) = b := by
  unfold fromBytes
  split <;> exact ⟨rfl, rfl⟩

/-- C3: constructing from a valid-UTF-8 byte sequence yields the `Utf8`
(Text) variant holding exactly those bytes, and `as_utf8` returns `some`
of the string whose UTF-8 encoding is `b` (strings are represented by
their byte buffers, so decoding `b` directly gives the string with byte
buffer `b`). -/
theorem C3_valid_bytes_are_text (b : List Nat) (h : validUtf8 b = true) :
    fromBytes b = .Utf8 b ∧ as_utf8 (fromBytes b) = some b := by
  unfold fromBytes
  rw [if_pos h]
  exact ⟨rfl, rfl⟩

theorem C3_valid_bytes_are_text_witness :
    validUtf8 [0x68, 0x69] = true ∧
      (fromBytes [0x68, 0x69] = .Utf8 [0x68, 0x69] ∧
        as_utf8 (fromBytes [0x68, 0x69]) = some [0x68, 0x69]) :=
  ⟨by decide, C3_valid_bytes_are_text [0x68, 0x69] (by decide)⟩

/-- C4: constructing from a byte sequence that is not valid UTF-8 yields
the `NotUtf8` (Bytes) variant holding the bytes unchanged, `as_utf8` on it
returns `none` (no panic - the function is total), and in general
`as_utf8` returns `none` exactly when the active variant is `NotUtf8`. -/
theorem C4_invalid_bytes_absent (b : List Nat) (m : MaybeUtf8Owned)
    (h : validUtf8 b = false) :
    fromBytes b = .NotUtf8 b ∧ as_utf8 (fromBytes b) = none ∧
      (as_utf8 m = none ↔ isNotUtf8 m = true) := by
  unfold fromBytes
  rw [if_neg (by simp [h])]
  refine ⟨rfl, rfl, ?_⟩
  cases m <;> simp [as_utf8, isNotUtf8]

theorem C4_invalid_bytes_absent_witness :
    validUtf8 [0xFF] = false ∧
      (fromBytes [0xFF] = .NotUtf8 [0xFF] ∧ as_utf8 (fromBytes [0xFF]) = none ∧
        (as_utf8 (MaybeUtf8.NotUtf8 [0xFF] : MaybeUtf8Owned) = none ↔
          isNotUtf8 (MaybeUtf8.NotUtf8 [0xFF] : MaybeUtf8Owned) = true)) :=
  ⟨by decide, C4_invalid_bytes_absent [0xFF] (MaybeUtf8.NotUtf8 [0xFF]) (by decide)⟩

/-- C5: for any two buffers, of any variant and any carrier types with
byte views, `PartialEq` holds iff the flat byte contents are equal, and
equal byte contents give identical hashes for every hasher (the `Hash`
implementation feeds exactly the flat byte view to the hasher); in
particular a `Utf8` and a `NotUtf8` value with the same octets are equal,
and different byte contents are never equal. -/
theorem C5_eq_hash_by_bytes {S1 V1 S2 V2 : Type} (fs1 : S1 → List Nat)
    (fv1 : V1 → List Nat) (fs2 : S2 → List Nat) (fv2 : V2 → List Nat)
    (hashFn : List Nat → Nat) (m1 : MaybeUtf8 S1 V1) (m2 : MaybeUtf8 S2 V2) :
    (muEq fs1 fv1 fs2 fv2 m1 m2 = true ↔
      asRefBytes fs1 fv1 m1 = asRefBytes fs2 fv2 m2) ∧
    (asRefBytes fs1 fv1 m1 = asRefBytes fs2 fv2 m2 →
      muHash hashFn fs1 fv1 m1 = muHash hashFn fs2 fv2 m2) := by
  constructor
  · simp [muEq]
  · intro h
    unfold muHash
    rw [h]

theorem C5_eq_hash_by_bytes_witness :
    (muEq id id id id (MaybeUtf8.Utf8 [0x61, 0x62, 0x63] : MaybeUtf8Owned)
        (MaybeUtf8.NotUtf8 [0x61, 0x62, 0x63] : MaybeUtf8Owned) = true ↔
      asRefBytes id id (MaybeUtf8.Utf8 [0x61, 0x62, 0x63] : MaybeUtf8Owned) =
        asRefBytes id id (MaybeUtf8.NotUtf8 [0x61, 0x62, 0x63] : MaybeUtf8Owned)) ∧
    (asRefBytes id id (MaybeUtf8.Utf8 [0x61, 0x62, 0x63] : MaybeUtf8Owned) =
        asRefBytes id id (MaybeUtf8.NotUtf8 [0x61, 0x62, 0x63] : MaybeUtf8Owned) →
      muHash List.length id id (MaybeUtf8.Utf8 [0x61, 0x62, 0x63] : MaybeUtf8Owned) =
        muHash List.length id id (MaybeUtf8.NotUtf8 [0x61, 0x62, 0x63] : MaybeUtf8Owned)) :=
  C5_eq_hash_by_bytes id id id id List.length _ _

/-- C6: appending standalone-invalid bytes to a `Utf8` (Text) buffer with
`push_bytes` leaves the buffer in the `NotUtf8` (Bytes) variant with flat
content equal to the old text bytes followed by the new bytes (a valid
prefix followed by a standalone-invalid suffix is never valid as a
whole, so the re-classification in the error branch picks `NotUtf8`). -/
theorem C6_push_invalid_downgrades (s bs : List Nat) (hs : validUtf8 s = true)
    (hbs : validUtf8 bs = false) :
    push_bytes (MaybeUtf8.Utf8 s) bs = .NotUtf8 (s ++ bs) := by
  unfold push_bytes
  rw [if_neg (by simp [hbs])]
  unfold fromBytes bytesPushBytes intoVec
  rw [if_neg (by simp [validUtf8_append_invalid s bs hs hbs])]

theorem C6_push_invalid_downgrades_witness :
    validUtf8 [0x61, 0x62] = true ∧ validUtf8 [0xFF] = false ∧
      push_bytes (MaybeUtf8.Utf8 [0x61, 0x62]) [0xFF] = .NotUtf8 [0x61, 0x62, 0xFF] :=
  ⟨by decide, by decide,
    C6_push_invalid_downgrades [0x61, 0x62] [0xFF] (by decide) (by decide)⟩

/-- C7: for every well-formed owned buffer, `as_utf8_lossy` returns the
standard lossy UTF-8 decoding of the flat byte content (U+FFFD for each
maximal ill-formed subpart), `Into<String>` returns the same string, and
for a `Utf8` (Text) buffer the lossy read is exactly the stored text with
no replacement. -/
theorem C7_lossy_reads (m : MaybeUtf8Owned) (hwf : wfOwned m) :
    as_utf8_lossy m = utf8Lossy (as_bytes m) ∧
    intoString m = as_utf8_lossy m ∧
    (isUtf8 m = true → as_utf8_lossy m = as_bytes m) := by
  cases m with
  | Utf8 s =>
    unfold wfOwned at hwf
    exact ⟨(utf8Lossy_of_valid s hwf).symm, rfl, fun _ => rfl⟩
  | NotUtf8 v =>
    refine ⟨rfl, ?_, by simp [isUtf8]⟩
    simp only [intoString, as_utf8_lossy]
    split
    · rename_i hv
      exact (utf8Lossy_of_valid v hv).symm
    · rfl

theorem C7_lossy_reads_witness :
    wfOwned (MaybeUtf8.Utf8 [0x61]) ∧
      (as_utf8_lossy (MaybeUtf8.Utf8 [0x61]) =
          utf8Lossy (as_bytes (MaybeUtf8.Utf8 [0x61])) ∧
        intoString (MaybeUtf8.Utf8 [0x61]) = as_utf8_lossy (MaybeUtf8.Utf8 [0x61]) ∧
        (isUtf8 (MaybeUtf8.Utf8 [0x61] : MaybeUtf8Owned) = true →
          as_utf8_lossy (MaybeUtf8.Utf8 [0x61]) = as_bytes (MaybeUtf8.Utf8 [0x61]))) :=
  ⟨by decide, C7_lossy_reads (MaybeUtf8.Utf8 [0x61]) (by decide)⟩

/-- C8: `push_str` with any string leaves the active variant unchanged and
appends the string's UTF-8 bytes to the flat content, on both variants. -/
theorem C8_push_str_appends (m : MaybeUtf8Owned) (t : List Nat)
    (ht : validUtf8 t = true) :
    isUtf8 (push_str m t) = isUtf8 m ∧
      as_bytes (push_str m t) = as_bytes m ++ t := by
  cases m <;> exact ⟨rfl, rfl⟩

theorem C8_push_str_appends_witness :
    validUtf8 [0x63, 0x64] = true ∧
      (isUtf8 (push_str (MaybeUtf8.Utf8 [0x61, 0x62]) [0x63, 0x64]) =
          isUtf8 (MaybeUtf8.Utf8 [0x61, 0x62] : MaybeUtf8Owned) ∧
        as_bytes (push_str (MaybeUtf8.Utf8 [0x61, 0x62]) [0x63, 0x64]) =
          as_bytes (MaybeUtf8.Utf8 [0x61, 0x62]) ++ [0x63, 0x64]) :=
  ⟨by decide, C8_push_str_appends (MaybeUtf8.Utf8 [0x61, 0x62]) [0x63, 0x64] (by decide)⟩

/-- C9: `push_char` with any Unicode scalar value leaves the active
variant unchanged, appends the UTF-8 encoding of the character to the flat
content, and preserves the `Utf8`-carrier validity invariant I1. -/
theorem C9_push_char_appends (m : MaybeUtf8Owned) (c : Nat)
    (hc : isScalar c = true) (hwf : wfOwned m) :
    isUtf8 (push_char m c) = isUtf8 m ∧
    as_bytes (push_char m c) = as_bytes m ++ utf8EncodeChar c ∧
    wfOwned (push_char m c) := by
  cases m with
  | Utf8 s =>
    refine ⟨rfl, rfl, ?_⟩
    unfold wfOwned at hwf
    show validUtf8 (s ++ utf8EncodeChar c) = true
    exact validUtf8_append s _ hwf (validUtf8_encodeChar c hc)
  | NotUtf8 v => exact ⟨rfl, rfl, trivial⟩

theorem C9_push_char_appends_witness :
    isScalar 0x100 = true ∧ wfOwned (MaybeUtf8.Utf8 [0x61]) ∧
      (isUtf8 (push_char (MaybeUtf8.Utf8 [0x61]) 0x100) =
          isUtf8 (MaybeUtf8.Utf8 [0x61] : MaybeUtf8Owned) ∧
        as_bytes (push_char (MaybeUtf8.Utf8 [0x61]) 0x100) =
          as_bytes (MaybeUtf8.Utf8 [0x61]) ++ utf8EncodeChar 0x100 ∧
        wfOwned (push_char (MaybeUtf8.Utf8 [0x61]) 0x100)) :=
  ⟨by decide, by decide,
    C9_push_char_appends (MaybeUtf8.Utf8 [0x61]) 0x100 (by decide) (by decide)⟩

/-- C10 (implicit): `as_slice` preserves the active variant tag and the
flat byte content, for any carrier reborrowing functions whose byte views
agree with the original carriers' byte views (which is what the
`AsRef` bounds of the source guarantee); slicing never re-classifies or
alters data. -/
theorem C10_as_slice_preserves {S V S2 V2 : Type} (fs : S → S2) (fv : V → V2)
    (gs : S → List Nat) (gv : V → List Nat)
    (gs2 : S2 → List Nat) (gv2 : V2 → List Nat) (m : MaybeUtf8 S V)
    (hfs : ∀ s, gs2 (fs s) = gs s) (hfv : ∀ v, gv2 (fv v) = gv v) :
    isUtf8 (as_slice fs fv m) = isUtf8 m ∧
      asRefBytes gs2 gv2 (as_slice fs fv m) = asRefBytes gs gv m := by
  cases m with
  | Utf8 s => exact ⟨rfl, hfs s⟩
  | NotUtf8 v => exact ⟨rfl, hfv v⟩

theorem C10_as_slice_preserves_witness :
    isUtf8 (as_slice id id (MaybeUtf8.NotUtf8 [0xFF] : MaybeUtf8Owned)) =
        isUtf8 (MaybeUtf8.NotUtf8 [0xFF] : MaybeUtf8Owned) ∧
      asRefBytes id id (as_slice id id (MaybeUtf8.NotUtf8 [0xFF] : MaybeUtf8Owned)) =
        asRefBytes id id (MaybeUtf8.NotUtf8 [0xFF] : MaybeUtf8Owned) :=
  C10_as_slice_preserves id id id id id id (MaybeUtf8.NotUtf8 [0xFF])
    (fun _ => rfl) (fun _ => rfl)
